import Mathlib

/-!
# Verification of the tiny-fabulist prompt/fable pipeline

Shallow embedding of `src/temp.py` (the `tinyfabulist` script): feature
combination and prompt generation (`generate_prompts`), streamed fable
generation (`generate_fable`), judge evaluation (`evaluate_fable`), the
threaded dispatcher (`generate_fable_threaded` / `main`), and the JSONL
writer/reader round trip (`write_fables` / `read_prompts`).

External effects (the PRNG, the OpenAI streaming API, stdout, the
threading runtime, the `json` and `pybars` libraries) are modelled
explicitly: randomness as a stream of draws, API calls as `Except`
results, thread completion order as a permutation of the launched work
units, and the library codecs as executable Lean functions.
-/

namespace TinyFabulist

/-- A 6-tuple of feature values, mirroring the tuple
`(char, trait, setting, conflict, resolution, moral)` built by
`generate_prompts` in `src/temp.py`; the rendering `context` dict carries
exactly the same six bindings, so the same structure serves as the
template-rendering context. -/
structure Combination where
  character : String
  trait : String
  setting : String
  conflict : String
  resolution : String
  moral : String
deriving DecidableEq, Repr, Inhabited

/-- The six feature lists read from `config['generator']['features']`
(`src/temp.py`, `generate_prompts`). -/
structure Features where
  characters : List String
  traits : List String
  settings : List String
  conflicts : List String
  resolutions : List String
  morals : List String
deriving Repr

/-- The full Cartesian feature space: every 6-tuple with one value per
feature dimension (the space the randomized mode of `generate_prompts`
samples from). -/
def combos (f : Features) : List Combination :=
  f.characters.flatMap fun c =>
    f.traits.flatMap fun t =>
      f.settings.flatMap fun s =>
        f.conflicts.flatMap fun cf =>
          f.resolutions.flatMap fun r =>
            f.morals.map fun m =>
              ⟨c, t, s, cf, r, m⟩

/-- The number of distinct 6-tuples in the Cartesian feature space. -/
def spaceSize (f : Features) : Nat := (combos f).dedup.length

/-- The sequential-mode combination for index `idx`
(`src/temp.py:156-163`): each dimension independently picks the element
at `idx % len(list)`. -/
def seqCombination (f : Features) (idx : Nat) : Combination :=
  { character := f.characters.getD (idx % f.characters.length) ""
    trait := f.traits.getD (idx % f.traits.length) ""
    setting := f.settings.getD (idx % f.settings.length) ""
    conflict := f.conflicts.getD (idx % f.conflicts.length) ""
    resolution := f.resolutions.getD (idx % f.resolutions.length) ""
    moral := f.morals.getD (idx % f.morals.length) "" }

/-- The non-random branch of the `while len(prompts) < count` loop of
`generate_prompts` (`src/temp.py:130,155-173`): while the prompt list is
shorter than `count`, render the combination at index `len(prompts)` and
append it.  `tpl` stands for the compiled `generator_template`. -/
def genSeqLoop (tpl : Combination → String) (f : Features) (count : Nat)
    (prompts : List String) : List String :=
  if prompts.length < count then
    genSeqLoop tpl f count (prompts ++ [tpl (seqCombination f prompts.length)])
  else prompts
termination_by count - prompts.length
decreasing_by simp_all; omega

/-- `generate_prompts(config, count, randomize=False)` restricted to the
prompt list it returns (the `system_prompt` component is a fixed render
of the system template, independent of the loop). -/
def generate_prompts_seq (tpl : Combination → String) (f : Features)
    (count : Nat) : List String :=
  genSeqLoop tpl f count []

/-- The randomized branch of the `while len(prompts) < count` loop of
`generate_prompts` (`src/temp.py:130-154`).  One call to
`sample(...,1)[0]` per dimension is modelled by one element of the draw
stream `draws`; `used` is the `used_combinations` set (kept as the list
of accepted tuples in acceptance order), `prompts` the prompt list and
`step` the number of draws consumed so far.  The source loop has no
bound, so the model carries `fuel`: `none` means the source loop has not
terminated within `fuel` iterations. -/
def genRandLoop (tpl : Combination → String) (draws : Nat → Combination)
    (count : Nat) : Nat → List Combination → List String → Nat →
    Option (List Combination × List String)
  | fuel, used, prompts, step =>
    if prompts.length < count then
      match fuel with
      | 0 => none
      | fuel + 1 =>
        let c := draws step
        if c ∈ used then
          genRandLoop tpl draws count fuel used prompts (step + 1)
        else
          genRandLoop tpl draws count fuel (used ++ [c])
            (prompts ++ [tpl c]) (step + 1)
    else some (used, prompts)

theorem genRandLoop_def (tpl : Combination → String)
    (draws : Nat → Combination) (count fuel : Nat)
    (used : List Combination) (prompts : List String) (step : Nat) :
    genRandLoop tpl draws count fuel used prompts step
      = if prompts.length < count then
          match fuel with
          | 0 => none
          | fuel + 1 =>
            if draws step ∈ used then
              genRandLoop tpl draws count fuel used prompts (step + 1)
            else
              genRandLoop tpl draws count fuel (used ++ [draws step])
                (prompts ++ [tpl (draws step)]) (step + 1)
        else some (used, prompts) := by
  conv_lhs => unfold genRandLoop

theorem genRandLoop_zero (tpl : Combination → String)
    (draws : Nat → Combination) (count : Nat)
    (used : List Combination) (prompts : List String) (step : Nat) :
    genRandLoop tpl draws count 0 used prompts step
      = if prompts.length < count then none else some (used, prompts) := by
  rw [genRandLoop_def]

theorem genRandLoop_succ (tpl : Combination → String)
    (draws : Nat → Combination) (count fuel : Nat)
    (used : List Combination) (prompts : List String) (step : Nat) :
    genRandLoop tpl draws count (fuel + 1) used prompts step
      = if prompts.length < count then
          (if draws step ∈ used then
            genRandLoop tpl draws count fuel used prompts (step + 1)
          else
            genRandLoop tpl draws count fuel (used ++ [draws step])
              (prompts ++ [tpl (draws step)]) (step + 1))
        else some (used, prompts) := by
  rw [genRandLoop_def]

/-- `generate_prompts(config, count, randomize=True)` restricted to the
accepted combinations and the prompt list, run from the empty state. -/
def generate_prompts_rand (tpl : Combination → String)
    (draws : Nat → Combination) (count fuel : Nat) :
    Option (List Combination × List String) :=
  genRandLoop tpl draws count fuel [] [] 0

/-- A draw stream is valid when every draw picks one value per dimension
out of the feature lists, as `sample(features[...], 1)[0]` does. -/
def validDraws (f : Features) (draws : Nat → Combination) : Prop :=
  ∀ i, draws i ∈ combos f

/-- A deterministic draw stream that enumerates the distinct tuples of
the feature space in order; a run of the uniform sampler that happens to
draw each tuple once realizes it. -/
def enumStream (f : Features) (i : Nat) : Combination :=
  (combos f).dedup.getD i default

/-- One chunk of the streamed chat completion: the value of
`message.choices[0].delta.content`, which is either a text delta or
`None` (`src/temp.py:250-252`). -/
abbrev Chunk := Option String

/-- `generate_fable(system_prompt, fable_prompt, base_url)`
(`src/temp.py:222-256`).  The outcome of the whole OpenAI streaming call
is passed in: `Except.ok chunks` is a successfully delivered stream of
deltas, `Except.error e` is any exception raised inside the `try` block
(client construction, request, or stream consumption), whose message the
`except` clause embeds in the sentinel return value. -/
def generate_fable (response : Except String (List Chunk)) : String :=
  match response with
  | .error e => "Error generating fable: " ++ e
  | .ok chunks =>
    chunks.foldl
      (fun fable_text c =>
        match c with
        | some s => fable_text ++ s
        | none => fable_text)
      ""

/-- Python `str.strip()` with no argument: remove leading and trailing
whitespace (applied in `evaluate_fable`, `src/temp.py:371`). -/
def pyStripList (l : List Char) : List Char :=
  ((l.dropWhile Char.isWhitespace).reverse.dropWhile Char.isWhitespace).reverse

/-- `str.strip()` on a `String`. -/
def pyStrip (s : String) : String := String.mk (pyStripList s.data)

/-- `evaluate_fable(fable)` (`src/temp.py:340-375`).  The outcome of the
judge-model call is passed in: `Except.ok content` is the value of
`chat_completion.choices[0].message.content`, `Except.error e` any
exception raised in the `try` block.  The success path returns
`content.strip()`; the failure path returns the sentinel string. -/
def evaluate_fable (response : Except String String) : String :=
  match response with
  | .error e => "Error evaluating fable: " ++ e
  | .ok content => pyStrip content

/-- One entry of `settings['llms']['hf-models']` as used by `main`:
`key` is the dict key (`model_name`), `name` and `base_url` the fields
read from the model configuration (`src/temp.py:328,332,421-423`). -/
structure ModelCfg where
  key : String
  name : String
  base_url : String
deriving DecidableEq, Repr

/-- One record appended to the shared `all_fables` list
(`src/temp.py:330-335`): a dict with exactly the keys `model`, `prompt`
and `fable`, all strings. -/
structure FableRecord where
  model : String
  prompt : String
  fable : String
deriving DecidableEq, Repr

/-- The work units launched by `main` (`src/temp.py:421-430`): one
thread per (model, prompt) pair, models outermost. -/
def workUnits (models : List ModelCfg) (prompts : List String) :
    List (ModelCfg × String) :=
  models.flatMap fun m => prompts.map fun p => (m, p)

/-- The body of `generate_fable_threaded` (`src/temp.py:312-338`)
restricted to the record it appends: the generated fable text for the
unit's prompt and base URL, tagged with `model_config['name']` and the
prompt.  `gen` abstracts `generate_fable` as a function of
(system prompt, fable prompt, base URL); since `generate_fable` catches
every exception and returns a string, the append always happens. -/
def runUnit (gen : String → String → String → String)
    (system_prompt : String) (u : ModelCfg × String) : FableRecord :=
  { model := u.1.name
    prompt := u.2
    fable := gen system_prompt u.2 u.1.base_url }

/-- The contents of the shared `all_fables` list after `main` joins all
threads (`src/temp.py:417-436`).  Each worker appends its single record
under the lock, so the list holds one record per unit, in thread
completion order; `order` is that completion order, an arbitrary
permutation of the launched work units. -/
def dispatchAll (gen : String → String → String → String)
    (system_prompt : String) (order : List (ModelCfg × String)) :
    List FableRecord :=
  order.map (runUnit gen system_prompt)

/-- A prompt-file record as read by `read_prompts` in the
`--generate-fables` path: a dict with a `prompt_type` and a `content`
field (`src/temp.py:410-411`). -/
structure PromptRec where
  prompt_type : String
  content : String
deriving DecidableEq, Repr

/-- `next((p['content'] for p in prompts if p['prompt_type'] == 'system_prompt'), None)`
(`src/temp.py:410`). -/
def findSystemPrompt (recs : List PromptRec) : Option String :=
  (recs.find? fun p => p.prompt_type = "system_prompt").map (·.content)

/-- `[p['content'] for p in prompts if p['prompt_type'] == 'generator_prompt']`
(`src/temp.py:411`). -/
def generatorPrompts (recs : List PromptRec) : List String :=
  (recs.filter fun p => p.prompt_type = "generator_prompt").map (·.content)

/-- `args.models if args.models else list(available_models.keys())`
(`src/temp.py:401`). -/
def modelsToUse (availableModels : List ModelCfg)
    (requested : List String) : List String :=
  if requested.isEmpty then availableModels.map (·.key) else requested

/-- `[m for m in models_to_use if m not in available_models]`
(`src/temp.py:404`). -/
def invalidModels (availableModels : List ModelCfg)
    (requested : List String) : List String :=
  (modelsToUse availableModels requested).filter fun m =>
    ¬ (availableModels.map (·.key)).contains m

/-- The `--generate-fables` branch of `main` (`src/temp.py:392-436`)
from the point where settings are loaded: validate the model registry
and the requested model names, extract the system prompt and generator
prompts from the prompt-file records, and on success return the joined
result collection.  `Except.error msg` is a raised
`ConfigError(msg)`, which aborts before any thread is started, leaving
the result collection empty.  `order` is the thread completion order
(intended to be a permutation of the work units). -/
def runGenerateFables (gen : String → String → String → String)
    (availableModels : List ModelCfg) (requested : List String)
    (recs : List PromptRec) (order : List (ModelCfg × String)) :
    Except String (List FableRecord) :=
  if availableModels.isEmpty then
    .error "No models found in configuration"
  else if ¬ (invalidModels availableModels requested).isEmpty then
    .error ("Invalid models: " ++
      String.intercalate ", " (invalidModels availableModels requested))
  else
    match findSystemPrompt recs with
    | none => .error "No system prompt found in prompt file."
    | some sp =>
      if sp = "" then .error "No system prompt found in prompt file."
      else .ok (dispatchAll gen sp order)

/-- Modelled from the spec: the handlebars template engine (`pybars`,
used by `generate_prompts` at `src/temp.py:124-128,146-173`) is a
third-party black box whose source is not part of this repository.  A
compiled template is a sequence of parts, each either literal text or a
placeholder naming a field of the rendering context. -/
inductive TplPart where
  | lit (s : String)
  | var (name : String)
deriving DecidableEq, Repr

/-- The rendering context: a finite map from field names to values (the
six feature names plus any derived keys). -/
abbrev Ctx := List (String × String)

/-- Modelled from the spec: rendering fills each placeholder from the
context and, per spec §4.2 and the `TemplateError` taxonomy of §7, fails
with an error — rather than silently substituting a value — when the
template references a field the context does not define. -/
def renderTpl (ctx : Ctx) : List TplPart → Except String String
  | [] => .ok ""
  | .lit s :: rest => (renderTpl ctx rest).map (fun r => s ++ r)
  | .var n :: rest =>
    match ctx.lookup n with
    | none => .error ("undefined field: " ++ n)
    | some v => (renderTpl ctx rest).map (fun r => v ++ r)

/-- A template references a field name iff one of its parts is a
placeholder for it. -/
def referencesField (t : List TplPart) (n : String) : Prop :=
  TplPart.var n ∈ t

/-- The opening brace character. -/
def lbrace : Char := Char.ofNat 123

/-- The closing brace character. -/
def rbrace : Char := Char.ofNat 125

/-- Hexadecimal digit character (lowercase) for a value below 16. -/
def hexDigitChar (n : Nat) : Char :=
  if n < 10 then Char.ofNat (48 + n) else Char.ofNat (87 + n)

/-- Modelled after the `json` library used by `write_fables`
(`src/temp.py:271-275`): the escape sequence `json.dump` emits for one
character of a string value.  Quote, backslash and control characters
are escaped (control characters via `\u00XX`), every other character is
emitted literally. -/
def escChar (c : Char) : List Char :=
  if c = '"' then ['\\', '"']
  else if c = '\\' then ['\\', '\\']
  else if c = '\n' then ['\\', 'n']
  else if c = '\r' then ['\\', 'r']
  else if c = '\t' then ['\\', 't']
  else if c.toNat < 32 then
    ['\\', 'u', '0', '0', hexDigitChar (c.toNat / 16), hexDigitChar (c.toNat % 16)]
  else [c]

/-- A JSON string literal for `s`: quote, escaped characters, quote. -/
def encodeStr (s : String) : List Char :=
  '"' :: s.data.flatMap escChar ++ ['"']

/-- `"<key>": ` — the serialized key of one field of the record dict,
followed by the `': '` separator `json.dump` uses. -/
def keyPrefix (k : String) : List Char :=
  '"' :: k.data ++ ['"', ':', ' ']

/-- One line of the JSONL output of `write_fables`
(`src/temp.py:271-274`): `json.dump` applied to the dict
`{field: fable[field] for field in ['model', 'prompt', 'fable']}`, whose
keys appear in insertion order with `', '` and `': '` separators. -/
def encodeRecord (r : FableRecord) : List Char :=
  lbrace :: (keyPrefix "model" ++ encodeStr r.model ++ [',', ' '] ++
    keyPrefix "prompt" ++ encodeStr r.prompt ++ [',', ' '] ++
    keyPrefix "fable" ++ encodeStr r.fable ++ [rbrace])

/-- The full stdout stream of the JSONL branch of `write_fables`
(`src/temp.py:271-275`): each record serialized on its own
newline-terminated line. -/
def write_fables (rs : List FableRecord) : List Char :=
  rs.flatMap fun r => encodeRecord r ++ ['\n']

/-- The numeric value of a hexadecimal digit character, `none` for a
non-hex character. -/
def hexVal (c : Char) : Option Nat :=
  if 48 ≤ c.toNat ∧ c.toNat ≤ 57 then some (c.toNat - 48)
  else if 97 ≤ c.toNat ∧ c.toNat ≤ 102 then some (c.toNat - 87)
  else if 65 ≤ c.toNat ∧ c.toNat ≤ 70 then some (c.toNat - 55)
  else none

/-- Modelled after `json.loads`: the body of a JSON string literal after
its opening quote.  Returns the decoded characters and the rest of the
input after the closing quote; `acc` holds the decoded characters read
so far, in reverse. -/
def parseStrBody (acc : List Char) : List Char → Option (List Char × List Char)
  | [] => none
  | c :: rest =>
    if c = '"' then some (acc.reverse, rest)
    else if c = '\\' then
      match rest with
      | [] => none
      | e :: rest2 =>
        if e = '"' then parseStrBody ('"' :: acc) rest2
        else if e = '\\' then parseStrBody ('\\' :: acc) rest2
        else if e = 'n' then parseStrBody ('\n' :: acc) rest2
        else if e = 'r' then parseStrBody ('\r' :: acc) rest2
        else if e = 't' then parseStrBody ('\t' :: acc) rest2
        else if e = 'u' then
          match rest2 with
          | h1 :: h2 :: h3 :: h4 :: rest3 =>
            match hexVal h1, hexVal h2, hexVal h3, hexVal h4 with
            | some a, some b, some c2, some d =>
              parseStrBody (Char.ofNat (4096 * a + 256 * b + 16 * c2 + d) :: acc) rest3
            | _, _, _, _ => none
          | _ => none
        else none
    else parseStrBody (c :: acc) rest

/-- A JSON string literal: opening quote then `parseStrBody`. -/
def parseStr : List Char → Option (List Char × List Char)
  | c :: rest => if c = '"' then parseStrBody [] rest else none
  | [] => none

/-- Consume the exact literal `pat` from the front of the input. -/
def dropLit : List Char → List Char → Option (List Char)
  | [], input => some input
  | p :: ps, c :: cs => if c = p then dropLit ps cs else none
  | _ :: _, [] => none

/-- Modelled after `json.loads` as invoked by `read_prompts`
(`src/temp.py:209-214`) on a line produced by `write_fables`: an object
with the three string fields `model`, `prompt`, `fable`, in that order,
and nothing after the closing brace. -/
def parseRecord (input : List Char) : Option FableRecord := do
  let i1 ← dropLit [lbrace] input
  let i2 ← dropLit (keyPrefix "model") i1
  let (m, i3) ← parseStr i2
  let i4 ← dropLit [',', ' '] i3
  let i5 ← dropLit (keyPrefix "prompt") i4
  let (p, i6) ← parseStr i5
  let i7 ← dropLit [',', ' '] i6
  let i8 ← dropLit (keyPrefix "fable") i7
  let (fb, i9) ← parseStr i8
  let i10 ← dropLit [rbrace] i9
  if i10.isEmpty then some ⟨String.mk m, String.mk p, String.mk fb⟩ else none

/-- Splitting a character stream into lines at newline characters, the
way `for line in f` iterates a file (the terminating newline itself is
dropped; `json.loads` ignores surrounding whitespace, so parsing the
line without its terminator is equivalent). -/
def splitLines : List Char → List (List Char)
  | [] => [[]]
  | c :: rest =>
    if c = '\n' then [] :: splitLines rest
    else
      match splitLines rest with
      | [] => [[c]]
      | l :: ls => (c :: l) :: ls

/-- `read_prompts(filename)` (`src/temp.py:200-220`) applied to a stream
of JSONL fable records: for each line whose `strip()` is non-empty,
parse it; any parse failure is a raised `ConfigError`, modelled as
`none`. -/
def read_prompts (input : List Char) : Option (List FableRecord) :=
  ((splitLines input).filter fun l => !(pyStripList l).isEmpty).mapM parseRecord

/-! ## Supporting lemmas -/

theorem genSeqLoop_closed (tpl : Combination → String) (f : Features)
    (count : Nat) :
    ∀ prompts : List String, prompts.length ≤ count →
    genSeqLoop tpl f count prompts
      = prompts ++ (List.range' prompts.length (count - prompts.length)).map
          (fun i => tpl (seqCombination f i)) := by
  suffices h : ∀ n, ∀ prompts : List String, prompts.length + n = count →
      genSeqLoop tpl f count prompts
        = prompts ++ (List.range' prompts.length n).map
            (fun i => tpl (seqCombination f i)) by
    intro prompts hle
    exact h (count - prompts.length) prompts (by omega)
  intro n
  induction n with
  | zero =>
    intro prompts hlen
    unfold genSeqLoop
    rw [if_neg (by omega)]
    simp
  | succ n ih =>
    intro prompts hlen
    unfold genSeqLoop
    rw [if_pos (by omega)]
    rw [ih (prompts ++ [tpl (seqCombination f prompts.length)])
      (by simp; omega)]
    simp [List.range'_succ, List.append_assoc]

theorem stringJoin_cons (s : String) (l : List String) :
    String.join (s :: l) = s ++ String.join l := by
  have aux : ∀ (l : List String) (a b : String),
      l.foldl (fun r t => r ++ t) (a ++ b) = a ++ l.foldl (fun r t => r ++ t) b := by
    intro l
    induction l with
    | nil => intro a b; rfl
    | cons x xs ih =>
      intro a b
      simp only [List.foldl_cons, String.append_assoc, ih]
  show List.foldl _ "" (s :: l) = _
  simp only [List.foldl_cons]
  have h := aux l s ""
  simpa using h

theorem generate_fable_foldl (chunks : List Chunk) (acc : String) :
    chunks.foldl
      (fun fable_text c =>
        match c with
        | some s => fable_text ++ s
        | none => fable_text)
      acc = acc ++ String.join (chunks.filterMap id) := by
  induction chunks generalizing acc with
  | nil => simp [String.join]
  | cons c rest ih =>
    cases c with
    | none => simpa using ih acc
    | some s =>
      simp only [List.foldl_cons, List.filterMap_cons, id]
      rw [ih, stringJoin_cons, String.append_assoc]

theorem workUnits_length (models : List ModelCfg) (prompts : List String) :
    (workUnits models prompts).length = models.length * prompts.length := by
  induction models with
  | nil => simp [workUnits]
  | cons m ms ih =>
    simp only [workUnits, List.flatMap_cons, List.length_append,
      List.length_map, List.length_cons]
    rw [show (ms.flatMap fun m => prompts.map fun p => (m, p))
        = workUnits ms prompts from rfl, ih]
    ring

theorem genRandLoop_some_length (tpl : Combination → String)
    (draws : Nat → Combination) (count : Nat) :
    ∀ fuel (used : List Combination) (prompts : List String) (step : Nat)
      (u : List Combination) (p : List String),
    genRandLoop tpl draws count fuel used prompts step = some (u, p) →
    prompts.length ≤ count → p.length = count := by
  intro fuel
  induction fuel with
  | zero =>
    intro used prompts step u p hsome hle
    rw [genRandLoop_zero] at hsome
    by_cases hlt : prompts.length < count
    · rw [if_pos hlt] at hsome
      cases hsome
    · rw [if_neg hlt] at hsome
      cases hsome
      omega
  | succ fuel ih =>
    intro used prompts step u p hsome hle
    rw [genRandLoop_succ] at hsome
    by_cases hlt : prompts.length < count
    · rw [if_pos hlt] at hsome
      by_cases hmem : draws step ∈ used
      · rw [if_pos hmem] at hsome
        exact ih _ _ _ _ _ hsome hle
      · rw [if_neg hmem] at hsome
        exact ih _ _ _ _ _ hsome (by simp; omega)
    · rw [if_neg hlt] at hsome
      cases hsome
      omega

theorem genRandLoop_some_map (tpl : Combination → String)
    (draws : Nat → Combination) (count : Nat) :
    ∀ fuel (used : List Combination) (prompts : List String) (step : Nat)
      (u : List Combination) (p : List String),
    genRandLoop tpl draws count fuel used prompts step = some (u, p) →
    prompts = used.map tpl → p = u.map tpl := by
  intro fuel
  induction fuel with
  | zero =>
    intro used prompts step u p hsome hmap
    rw [genRandLoop_zero] at hsome
    by_cases hlt : prompts.length < count
    · rw [if_pos hlt] at hsome
      cases hsome
    · rw [if_neg hlt] at hsome
      cases hsome
      exact hmap
  | succ fuel ih =>
    intro used prompts step u p hsome hmap
    rw [genRandLoop_succ] at hsome
    by_cases hlt : prompts.length < count
    · rw [if_pos hlt] at hsome
      by_cases hmem : draws step ∈ used
      · rw [if_pos hmem] at hsome
        exact ih _ _ _ _ _ hsome hmap
      · rw [if_neg hmem] at hsome
        exact ih _ _ _ _ _ hsome (by rw [hmap, List.map_append]; rfl)
    · rw [if_neg hlt] at hsome
      cases hsome
      exact hmap

theorem genRandLoop_some_nodup (tpl : Combination → String)
    (draws : Nat → Combination) (count : Nat) :
    ∀ fuel (used : List Combination) (prompts : List String) (step : Nat)
      (u : List Combination) (p : List String),
    genRandLoop tpl draws count fuel used prompts step = some (u, p) →
    used.Nodup → u.Nodup := by
  intro fuel
  induction fuel with
  | zero =>
    intro used prompts step u p hsome hnd
    rw [genRandLoop_zero] at hsome
    by_cases hlt : prompts.length < count
    · rw [if_pos hlt] at hsome
      cases hsome
    · rw [if_neg hlt] at hsome
      cases hsome
      exact hnd
  | succ fuel ih =>
    intro used prompts step u p hsome hnd
    rw [genRandLoop_succ] at hsome
    by_cases hlt : prompts.length < count
    · rw [if_pos hlt] at hsome
      by_cases hmem : draws step ∈ used
      · rw [if_pos hmem] at hsome
        exact ih _ _ _ _ _ hsome hnd
      · rw [if_neg hmem] at hsome
        refine ih _ _ _ _ _ hsome ?_
        simp [List.nodup_append, hnd, hmem]
    · rw [if_neg hlt] at hsome
      cases hsome
      exact hnd

theorem genRandLoop_some_subset (tpl : Combination → String)
    (draws : Nat → Combination) (count : Nat) (S : List Combination)
    (hdraws : ∀ i, draws i ∈ S) :
    ∀ fuel (used : List Combination) (prompts : List String) (step : Nat)
      (u : List Combination) (p : List String),
    genRandLoop tpl draws count fuel used prompts step = some (u, p) →
    (∀ c ∈ used, c ∈ S) → ∀ c ∈ u, c ∈ S := by
  intro fuel
  induction fuel with
  | zero =>
    intro used prompts step u p hsome hsub
    rw [genRandLoop_zero] at hsome
    by_cases hlt : prompts.length < count
    · rw [if_pos hlt] at hsome
      cases hsome
    · rw [if_neg hlt] at hsome
      cases hsome
      exact hsub
  | succ fuel ih =>
    intro used prompts step u p hsome hsub
    rw [genRandLoop_succ] at hsome
    by_cases hlt : prompts.length < count
    · rw [if_pos hlt] at hsome
      by_cases hmem : draws step ∈ used
      · rw [if_pos hmem] at hsome
        exact ih _ _ _ _ _ hsome hsub
      · rw [if_neg hmem] at hsome
        refine ih _ _ _ _ _ hsome ?_
        intro c hc
        rcases List.mem_append.mp hc with h | h
        · exact hsub c h
        · rw [List.mem_singleton.mp h]
          exact hdraws step
    · rw [if_neg hlt] at hsome
      cases hsome
      exact hsub

theorem genRandLoop_isSome (tpl : Combination → String)
    (draws : Nat → Combination) (count : Nat) :
    ∀ fuel (used : List Combination) (prompts : List String) (step : Nat),
    count ≤ prompts.length + fuel →
    (∀ i, step ≤ i → i < step + fuel → draws i ∉ used) →
    (∀ i j, step ≤ i → i < step + fuel → step ≤ j → j < step + fuel →
      i ≠ j → draws i ≠ draws j) →
    (genRandLoop tpl draws count fuel used prompts step).isSome := by
  intro fuel
  induction fuel with
  | zero =>
    intro used prompts step hcount _ _
    rw [genRandLoop_zero, if_neg (by omega)]
    rfl
  | succ fuel ih =>
    intro used prompts step hcount havoid hinj
    rw [genRandLoop_succ]
    by_cases hlt : prompts.length < count
    · rw [if_pos hlt]
      rw [if_neg (havoid step (le_refl _) (by omega))]
      apply ih
      · simp
        omega
      · intro i h1 h2
        simp only [List.mem_append, List.mem_singleton]
        push_neg
        refine ⟨havoid i (by omega) (by omega), ?_⟩
        exact hinj i step (by omega) (by omega) (by omega) (by omega) (by omega)
      · intro i j hi1 hi2 hj1 hj2 hne
        exact hinj i j (by omega) (by omega) (by omega) (by omega) hne
    · rw [if_neg hlt]
      rfl

theorem enumStream_run_isSome (tpl : Combination → String) (f : Features)
    (N : Nat) (h : N ≤ spaceSize f) :
    (generate_prompts_rand tpl (enumStream f) N N).isSome := by
  apply genRandLoop_isSome
  · omega
  · intro i _ _
    exact List.not_mem_nil _
  · intro i j hi1 hi2 hj1 hj2 hne
    unfold enumStream
    have hiL : i < (combos f).dedup.length := by
      have := h
      unfold spaceSize at this
      omega
    have hjL : j < (combos f).dedup.length := by
      have := h
      unfold spaceSize at this
      omega
    rw [List.getD_eq_getElem _ _ hiL, List.getD_eq_getElem _ _ hjL]
    intro heq
    exact hne ((List.nodup_dedup (combos f)).getElem_inj_iff.mp heq)

theorem char_ofNat_toNat (c : Char) : Char.ofNat c.toNat = c := by
  rcases c with ⟨v, hv⟩
  have hval : Nat.isValidChar v.toNat := by
    rcases hv with h | ⟨h1, h2⟩
    · exact Or.inl h
    · exact Or.inr ⟨h1, h2⟩
  simp only [Char.toNat, Char.ofNat, hval, dif_pos]
  apply Char.ext
  show { toBitVec := _ } = v
  rcases v with ⟨bv⟩
  apply congrArg
  apply BitVec.eq_of_toNat_eq
  simp [Char.ofNatAux]
  rfl

theorem hexVal_hexDigitChar : ∀ n, n < 16 → hexVal (hexDigitChar n) = some n := by
  decide

theorem parseStrBody_flatMap (s : List Char) :
    ∀ (acc rest : List Char),
    parseStrBody acc (s.flatMap escChar ++ '"' :: rest)
      = some (acc.reverse ++ s, rest) := by
  induction s with
  | nil =>
    intro acc rest
    unfold parseStrBody
    simp
  | cons c cs ih =>
    intro acc rest
    rw [List.flatMap_cons, List.append_assoc]
    by_cases h1 : c = '"'
    · subst h1
      rw [show escChar '"' = ['\\', '"'] from rfl, List.cons_append,
        List.cons_append, List.nil_append]
      unfold parseStrBody
      simp [ih]
    · by_cases h2 : c = '\\'
      · subst h2
        rw [show escChar '\\' = ['\\', '\\'] from rfl, List.cons_append,
          List.cons_append, List.nil_append]
        unfold parseStrBody
        simp [ih]
      · by_cases h3 : c = '\n'
        · subst h3
          rw [show escChar '\n' = ['\\', 'n'] from rfl, List.cons_append,
            List.cons_append, List.nil_append]
          unfold parseStrBody
          simp [ih]
        · by_cases h4 : c = '\r'
          · subst h4
            rw [show escChar '\r' = ['\\', 'r'] from rfl, List.cons_append,
              List.cons_append, List.nil_append]
            unfold parseStrBody
            simp [ih]
          · by_cases h5 : c = '\t'
            · subst h5
              rw [show escChar '\t' = ['\\', 't'] from rfl, List.cons_append,
                List.cons_append, List.nil_append]
              unfold parseStrBody
              simp [ih]
            · by_cases h6 : c.toNat < 32
              · rw [show escChar c
                    = ['\\', 'u', '0', '0', hexDigitChar (c.toNat / 16),
                        hexDigitChar (c.toNat % 16)] from by
                  simp only [escChar, if_neg h1, if_neg h2, if_neg h3,
                    if_neg h4, if_neg h5, if_pos h6]]
                simp only [List.cons_append, List.nil_append]
                unfold parseStrBody
                simp
                rw [show hexVal '0' = some 0 from rfl,
                  hexVal_hexDigitChar _ (by omega),
                  hexVal_hexDigitChar _ (Nat.mod_lt _ (by omega))]
                simp
                have harith : 16 * (c.toNat / 16) + c.toNat % 16 = c.toNat := by
                  omega
                rw [harith, char_ofNat_toNat, ih]
                simp
              · rw [show escChar c = [c] from by
                  simp only [escChar, if_neg h1, if_neg h2, if_neg h3,
                    if_neg h4, if_neg h5, if_neg h6]]
                simp only [List.cons_append, List.nil_append]
                unfold parseStrBody
                rw [if_neg h1, if_neg h2, ih]
                simp

theorem parseStr_encodeStr (s : String) (rest : List Char) :
    parseStr (encodeStr s ++ rest) = some (s.data, rest) := by
  unfold encodeStr
  rw [List.append_assoc, List.cons_append, List.singleton_append]
  unfold parseStr
  simp
  rw [parseStrBody_flatMap]
  simp

theorem dropLit_nil (input : List Char) : dropLit [] input = some input := rfl

theorem dropLit_cons (p : Char) (ps input : List Char) :
    dropLit (p :: ps) (p :: input) = dropLit ps input := by
  simp [dropLit]

theorem dropLit_append (pat : List Char) (rest : List Char) :
    dropLit pat (pat ++ rest) = some rest := by
  induction pat with
  | nil => rfl
  | cons p ps ih => simp [dropLit, ih]

theorem parseRecord_encodeRecord (r : FableRecord) :
    parseRecord (encodeRecord r) = some r := by
  obtain ⟨m, p, fb⟩ := r
  unfold parseRecord
  rw [show encodeRecord ⟨m, p, fb⟩
      = [lbrace] ++ (keyPrefix "model" ++ (encodeStr m ++ ([',', ' '] ++
          (keyPrefix "prompt" ++ (encodeStr p ++ ([',', ' '] ++
            (keyPrefix "fable" ++ (encodeStr fb ++ ([rbrace] ++ [])))))))))
    from by simp [encodeRecord, List.append_assoc]]
  simp [dropLit_append, dropLit_cons, dropLit_nil, parseStr_encodeStr]

theorem hexDigitChar_ne_newline : ∀ n, n < 16 → hexDigitChar n ≠ '\n' := by
  decide

theorem newline_not_mem_escChar (c : Char) : '\n' ∉ escChar c := by
  unfold escChar
  split_ifs with h1 h2 h3 h4 h5 h6
  · decide
  · decide
  · decide
  · decide
  · decide
  · intro hmem
    have hd1 := hexDigitChar_ne_newline (c.toNat / 16) (by omega)
    have hd2 := hexDigitChar_ne_newline (c.toNat % 16) (Nat.mod_lt _ (by omega))
    simp only [List.mem_cons, List.not_mem_nil] at hmem
    rcases hmem with h | h | h | h | h | h | h
    · exact absurd h (by decide)
    · exact absurd h (by decide)
    · exact absurd h (by decide)
    · exact absurd h (by decide)
    · exact hd1 h.symm
    · exact hd2 h.symm
    · exact h
  · intro hmem
    rw [List.mem_singleton] at hmem
    rw [← hmem] at h6
    exact h6 (by decide)

theorem newline_not_mem_encodeStr (s : String) : '\n' ∉ encodeStr s := by
  unfold encodeStr
  intro hmem
  simp only [List.cons_append, List.mem_cons, List.mem_append,
    List.mem_singleton, List.mem_flatMap] at hmem
  rcases hmem with h | ⟨a, _, h⟩ | h
  · exact absurd h (by decide)
  · exact newline_not_mem_escChar a h
  · exact absurd h (by decide)

theorem newline_not_mem_encodeRecord (r : FableRecord) :
    '\n' ∉ encodeRecord r := by
  have hkm : '\n' ∉ keyPrefix "model" := by decide
  have hkp : '\n' ∉ keyPrefix "prompt" := by decide
  have hkf : '\n' ∉ keyPrefix "fable" := by decide
  have hm := newline_not_mem_encodeStr r.model
  have hp := newline_not_mem_encodeStr r.prompt
  have hf := newline_not_mem_encodeStr r.fable
  unfold encodeRecord
  intro hmem
  simp only [List.mem_cons, List.mem_append, List.mem_singleton] at hmem
  rcases hmem with h | h
  · exact absurd h (by decide)
  · rcases h with ((((((((h | h) | h) | h) | h) | h) | h) | h) | h)
    · exact hkm h
    · exact hm h
    · exact absurd h (by decide)
    · exact hkp h
    · exact hp h
    · exact absurd h (by decide)
    · exact hkf h
    · exact hf h
    · exact absurd h (by decide)

theorem splitLines_cons (c : Char) (t : List Char) :
    splitLines (c :: t)
      = if c = '\n' then [] :: splitLines t
        else
          match splitLines t with
          | [] => [[c]]
          | l :: ls => (c :: l) :: ls := by
  conv_lhs => unfold splitLines

theorem splitLines_append_newline (xs : List Char) (h : '\n' ∉ xs)
    (rest : List Char) :
    splitLines (xs ++ '\n' :: rest) = xs :: splitLines rest := by
  induction xs with
  | nil =>
    rw [List.nil_append, splitLines_cons, if_pos rfl]
  | cons c cs ih =>
    rw [List.mem_cons, not_or] at h
    obtain ⟨h1, h2⟩ := h
    rw [List.cons_append, splitLines_cons, if_neg (Ne.symm h1), ih h2]

theorem splitLines_write_fables (rs : List FableRecord) :
    splitLines (write_fables rs) = rs.map encodeRecord ++ [[]] := by
  induction rs with
  | nil => rfl
  | cons r rest ih =>
    unfold write_fables
    rw [List.flatMap_cons, List.append_assoc, List.singleton_append,
      splitLines_append_newline _ (newline_not_mem_encodeRecord r),
      show rest.flatMap (fun r => encodeRecord r ++ ['\n'])
        = write_fables rest from rfl, ih]
    rfl

theorem pyStripList_encodeRecord_ne_nil (r : FableRecord) :
    pyStripList (encodeRecord r) ≠ [] := by
  unfold encodeRecord pyStripList
  rw [List.dropWhile_cons_of_neg (by decide)]
  intro hnil
  rw [List.reverse_eq_nil_iff, List.dropWhile_eq_nil_iff] at hnil
  have hlb := hnil lbrace (by simp)
  exact absurd hlb (by decide)

theorem mapM_parseRecord_encodeRecord (rs : List FableRecord) :
    (rs.map encodeRecord).mapM parseRecord = some rs := by
  induction rs with
  | nil => rfl
  | cons r rest ih =>
    have hloop : List.mapM.loop parseRecord (List.map encodeRecord rest) []
        = some rest := ih
    rw [List.map_cons, List.mapM_cons]
    simp [parseRecord_encodeRecord, hloop]

/-- A small concrete feature set used to instantiate theorems with
hypotheses. -/
def wF : Features :=
  ⟨["Fox", "Rabbit"], ["Brave"], ["Forest"], ["Hunger"], ["Shared"],
    ["Kindness wins"]⟩

/-- A small concrete rendering function used to instantiate theorems
with hypotheses. -/
def wTpl (c : Combination) : String := c.character ++ "/" ++ c.moral

/-- A small concrete model registry used to instantiate theorems with
hypotheses. -/
def wModels : List ModelCfg :=
  [⟨"k1", "model-one", "url1"⟩, ⟨"k2", "model-two", "url2"⟩]

/-- A small concrete generation function used to instantiate theorems
with hypotheses. -/
def wGen (sys p url : String) : String := sys ++ "|" ++ p ++ "|" ++ url

/-- A constant draw stream over `wF`, used to instantiate the
non-termination half of the termination-boundary theorem. -/
def wDrawsConst (_ : Nat) : Combination :=
  ⟨"Fox", "Brave", "Forest", "Hunger", "Shared", "Kindness wins"⟩

end TinyFabulist

namespace TinyFabulist

/-! ## Claims -/

/-- C2: with `randomize` false, `generate_prompts` returns exactly `N`
rendered prompts, and the `i`-th prompt (0-based) is rendered from the
combination whose value in each of the six dimensions is
`feature[i mod len(feature)]`, each dimension indexed independently.
The feature lists are required non-empty, as `i mod len(feature)`
presupposes (`i % 0` raises in the source). -/
theorem generate_prompts_seq_spec (tpl : Combination → String) (f : Features)
    (N : Nat) (_hc : f.characters ≠ []) (_ht : f.traits ≠ [])
    (_hs : f.settings ≠ []) (_hcf : f.conflicts ≠ [])
    (_hr : f.resolutions ≠ []) (_hm : f.morals ≠ []) :
    (generate_prompts_seq tpl f N).length = N ∧
    ∀ i, i < N →
      (generate_prompts_seq tpl f N).getD i "" = tpl (seqCombination f i) := by
  unfold generate_prompts_seq
  rw [genSeqLoop_closed tpl f N [] (by simp)]
  simp only [List.nil_append, List.length_nil, Nat.sub_zero]
  rw [← List.range_eq_range']
  constructor
  · simp
  · intro i hi
    have hlen : i < ((List.range N).map fun j => tpl (seqCombination f j)).length := by
      simpa using hi
    rw [List.getD_eq_getElem _ _ hlen]
    simp

/-- C2 witness: the sequential mode at a concrete feature set and
count. -/
theorem generate_prompts_seq_spec_witness :
    (generate_prompts_seq wTpl wF 3).length = 3 ∧
    ∀ i, i < 3 →
      (generate_prompts_seq wTpl wF 3).getD i "" = wTpl (seqCombination wF i) :=
  generate_prompts_seq_spec wTpl wF 3 (List.cons_ne_nil _ _)
    (List.cons_ne_nil _ _) (List.cons_ne_nil _ _) (List.cons_ne_nil _ _)
    (List.cons_ne_nil _ _) (List.cons_ne_nil _ _)

/-- C7: rendering a template that references a field name not bound in
the rendering context fails with an error rather than silently
substituting a value for the undefined field. -/
theorem render_undefined_field_fails (t : List TplPart) (ctx : Ctx)
    (n : String) (href : referencesField t n)
    (hund : ctx.lookup n = none) :
    ∃ msg, renderTpl ctx t = .error msg := by
  induction t with
  | nil => exact absurd href (by simp [referencesField])
  | cons part rest ih =>
    cases part with
    | lit s =>
      have hmem : TplPart.var n ∈ rest := by
        rcases List.mem_cons.mp href with h | h
        · exact absurd h (by simp)
        · exact h
      obtain ⟨msg, hmsg⟩ := ih hmem
      exact ⟨msg, by simp [renderTpl, hmsg, Except.map]⟩
    | var k =>
      match hk : ctx.lookup k with
      | none => exact ⟨"undefined field: " ++ k, by simp [renderTpl, hk]⟩
      | some v =>
        have hkn : TplPart.var n ≠ TplPart.var k := by
          intro h
          rw [TplPart.var.injEq] at h
          rw [← h, hund] at hk
          cases hk
        have hmem : TplPart.var n ∈ rest := by
          rcases List.mem_cons.mp href with h | h
          · exact absurd h hkn
          · exact h
        obtain ⟨msg, hmsg⟩ := ih hmem
        exact ⟨msg, by simp [renderTpl, hk, hmsg, Except.map]⟩

/-- C7 witness: a template referencing the single undefined field
`moral_lesson` against the empty context fails to render. -/
theorem render_undefined_field_fails_witness :
    referencesField [TplPart.var "moral_lesson"] "moral_lesson" ∧
    ∃ msg, renderTpl [] [TplPart.var "moral_lesson"] = .error msg :=
  ⟨by simp [referencesField],
    render_undefined_field_fails [TplPart.var "moral_lesson"] []
      "moral_lesson" (by simp [referencesField]) rfl⟩

/-- C3: with `randomize` true and `N` at most the number of distinct
6-tuples in the Cartesian feature space, `generate_prompts` returns
exactly `N` prompts rendered from `N` pairwise-distinct 6-tuples: any
terminating run yields `N` accepted tuples with no duplicate and the
prompt list renders them in acceptance order, and a terminating run
exists (realized by a draw stream that enumerates the distinct
tuples). -/
theorem generate_prompts_rand_spec (tpl : Combination → String)
    (f : Features) (N : Nat) (h : N ≤ spaceSize f) :
    (∀ (draws : Nat → Combination) (fuel : Nat)
        (u : List Combination) (p : List String),
      generate_prompts_rand tpl draws N fuel = some (u, p) →
      p.length = N ∧ u.length = N ∧ u.Nodup ∧ p = u.map tpl) ∧
    (∃ fuel u p,
      generate_prompts_rand tpl (enumStream f) N fuel = some (u, p)) := by
  constructor
  · intro draws fuel u p hsome
    have hlen := genRandLoop_some_length tpl draws N fuel [] [] 0 u p hsome
      (by simp)
    have hmap := genRandLoop_some_map tpl draws N fuel [] [] 0 u p hsome rfl
    have hnodup := genRandLoop_some_nodup tpl draws N fuel [] [] 0 u p hsome
      List.nodup_nil
    refine ⟨hlen, ?_, hnodup, hmap⟩
    have := hlen
    rw [hmap, List.length_map] at this
    exact this
  · refine ⟨N, ?_⟩
    have hs := enumStream_run_isSome tpl f N h
    obtain ⟨⟨u, p⟩, hup⟩ := Option.isSome_iff_exists.mp hs
    exact ⟨u, p, hup⟩

/-- C3 witness: the feature space of `wF` has 2 distinct tuples and a
terminating randomized run collecting 2 of them exists. -/
theorem generate_prompts_rand_spec_witness :
    2 ≤ spaceSize wF ∧
    ∃ fuel u p,
      generate_prompts_rand wTpl (enumStream wF) 2 fuel = some (u, p) :=
  ⟨by decide, (generate_prompts_rand_spec wTpl wF 2 (by decide)).2⟩

/-- C4: the randomized sampling loop of `generate_prompts` terminates
whenever the requested count is at most the number of distinct 6-tuples
in the feature space (some finite fuel suffices under the enumerating
draw stream), and does not terminate when the count exceeds that number:
for every valid draw stream and every amount of fuel the loop is still
running (the source has no attempt cap or exhaustion failure). -/
theorem generate_prompts_rand_termination_boundary
    (tpl : Combination → String) (f : Features) (N : Nat) :
    (N ≤ spaceSize f →
      ∃ fuel, (generate_prompts_rand tpl (enumStream f) N fuel).isSome) ∧
    (spaceSize f < N →
      ∀ draws, validDraws f draws →
      ∀ fuel, generate_prompts_rand tpl draws N fuel = none) := by
  constructor
  · intro h
    exact ⟨N, enumStream_run_isSome tpl f N h⟩
  · intro hgt draws hvalid fuel
    cases hr : generate_prompts_rand tpl draws N fuel with
    | none => rfl
    | some up =>
      obtain ⟨u, p⟩ := up
      have hlen := genRandLoop_some_length tpl draws N fuel [] [] 0 u p hr
        (by simp)
      have hmap := genRandLoop_some_map tpl draws N fuel [] [] 0 u p hr rfl
      have hnodup := genRandLoop_some_nodup tpl draws N fuel [] [] 0 u p hr
        List.nodup_nil
      have hsub := genRandLoop_some_subset tpl draws N (combos f) hvalid
        fuel [] [] 0 u p hr (by simp)
      have hulen : u.length = N := by
        rw [hmap, List.length_map] at hlen
        exact hlen
      have hcard : u.length ≤ spaceSize f := by
        have h3 : u.toFinset.card ≤ (combos f).toFinset.card := by
          apply Finset.card_le_card
          intro x hx
          rw [List.mem_toFinset] at hx ⊢
          exact hsub x hx
        simp only [List.card_toFinset] at h3
        rw [List.Nodup.dedup hnodup] at h3
        unfold spaceSize
        exact h3
      omega

/-- C4 witness: over the feature space of `wF` (2 distinct tuples), a
run collecting 2 tuples terminates, while a request for 3 tuples
never finishes — shown here with 5 units of fuel under the constant
valid draw stream. -/
theorem generate_prompts_rand_termination_boundary_witness :
    (∃ fuel, (generate_prompts_rand wTpl (enumStream wF) 2 fuel).isSome) ∧
    generate_prompts_rand wTpl wDrawsConst 3 5 = none :=
  ⟨(generate_prompts_rand_termination_boundary wTpl wF 2).1 (by decide),
    (generate_prompts_rand_termination_boundary wTpl wF 3).2 (by decide)
      wDrawsConst (fun i => by unfold wDrawsConst; decide) 5⟩

/-- C5: for every stream of completion chunks, `generate_fable` returns
the concatenation, in stream order, of exactly the non-null delta
contents, skipping deltas with no content; in particular the stream of
deltas `["Once", " upon", " a time"]` with no errors yields
`"Once upon a time"`. -/
theorem generate_fable_concatenates_deltas :
    (∀ chunks : List Chunk,
        generate_fable (.ok chunks) = String.join (chunks.filterMap id)) ∧
    generate_fable (.ok [some "Once", some " upon", some " a time"])
      = "Once upon a time" := by
  refine ⟨fun chunks => ?_, by rfl⟩
  show List.foldl _ "" chunks = _
  rw [generate_fable_foldl]
  simp

/-- C6: for every failure raised inside the generation call,
`generate_fable` does not propagate the exception: it returns the
sentinel string `"Error generating fable: "` followed by the error
message, so it is a total function into strings. -/
theorem generate_fable_error_sentinel :
    ∀ e : String, generate_fable (.error e) = "Error generating fable: " ++ e :=
  fun _ => rfl

/-- C8 counterexample: `evaluate_fable` does not return the judge
response content unmodified — on the content `" 7 "` it returns the
stripped string `"7"`. -/
theorem evaluate_fable_not_unmodified :
    evaluate_fable (.ok " 7 ") = "7" ∧ ("7" : String) ≠ " 7 " := by
  constructor
  · rfl
  · decide

/-- C8 amended: `evaluate_fable` surfaces the judge response content
as-is except for stripping leading and trailing whitespace (Python
`str.strip()` at `src/temp.py:371`): the returned string is an infix of
the content, and what is removed on either side is whitespace only.  No
retry, no parsing and no numeric validation take place. -/
theorem evaluate_fable_surfaces_stripped (content : String) :
    ∃ pre post : List Char,
      (∀ c ∈ pre, c.isWhitespace) ∧ (∀ c ∈ post, c.isWhitespace) ∧
      content.data = pre ++ (evaluate_fable (.ok content)).data ++ post := by
  refine ⟨content.data.takeWhile Char.isWhitespace,
    ((content.data.dropWhile Char.isWhitespace).reverse.takeWhile
      Char.isWhitespace).reverse, ?_, ?_, ?_⟩
  · intro c hc
    exact List.mem_takeWhile_imp hc
  · intro c hc
    rw [List.mem_reverse] at hc
    exact List.mem_takeWhile_imp hc
  · show content.data
        = content.data.takeWhile Char.isWhitespace ++
          pyStripList content.data ++
          ((content.data.dropWhile Char.isWhitespace).reverse.takeWhile
            Char.isWhitespace).reverse
    unfold pyStripList
    have h3 : content.data.dropWhile Char.isWhitespace
        = ((content.data.dropWhile Char.isWhitespace).reverse.dropWhile
            Char.isWhitespace).reverse ++
          ((content.data.dropWhile Char.isWhitespace).reverse.takeWhile
            Char.isWhitespace).reverse := by
      conv_lhs => rw [← List.reverse_reverse
        (content.data.dropWhile Char.isWhitespace)]
      conv_lhs => rw [← List.takeWhile_append_dropWhile (p := Char.isWhitespace)
        (l := (content.data.dropWhile Char.isWhitespace).reverse)]
      rw [List.reverse_append]
    conv_lhs => rw [← List.takeWhile_append_dropWhile (p := Char.isWhitespace)
      (l := content.data)]
    conv_lhs => rw [h3]
    rw [List.append_assoc]

/-- C1: for every list of model configurations and list of fable
prompts, after joining all worker threads the shared result collection
holds exactly one FableRecord per (model, prompt) pair — its size is
`|models| * |prompts|` and its contents are, up to the completion-order
permutation, exactly the records of the launched work units — no matter
in which order the workers complete. -/
theorem dispatcher_one_record_per_pair
    (gen : String → String → String → String) (sys : String)
    (models : List ModelCfg) (prompts : List String)
    (order : List (ModelCfg × String))
    (h : order.Perm (workUnits models prompts)) :
    (dispatchAll gen sys order).length = models.length * prompts.length ∧
    (dispatchAll gen sys order).Perm
      ((workUnits models prompts).map (runUnit gen sys)) := by
  constructor
  · rw [dispatchAll, List.length_map, h.length_eq, workUnits_length]
  · exact h.map _

/-- C1 witness: two models and two prompts, with the workers completing
in reverse launch order, still yield exactly the four expected
records. -/
theorem dispatcher_one_record_per_pair_witness :
    (dispatchAll wGen "sys" ((workUnits wModels ["p1", "p2"]).reverse)).length
        = wModels.length * (["p1", "p2"] : List String).length ∧
    (dispatchAll wGen "sys" ((workUnits wModels ["p1", "p2"]).reverse)).Perm
      ((workUnits wModels ["p1", "p2"]).map (runUnit wGen "sys")) :=
  dispatcher_one_record_per_pair wGen "sys" wModels ["p1", "p2"]
    ((workUnits wModels ["p1", "p2"]).reverse) (List.reverse_perm _)

/-- C10: when the model registry is non-empty and the requested models
are all valid, a prompt file whose records contain no
`system_prompt` entry makes the generate-fables path fail with
`ConfigError("No system prompt found in prompt file.")` before any
generation thread is launched, so no generation work is performed and
the result collection stays empty. -/
theorem no_system_prompt_aborts
    (gen : String → String → String → String)
    (availableModels : List ModelCfg) (requested : List String)
    (recs : List PromptRec) (order : List (ModelCfg × String))
    (hne : availableModels ≠ [])
    (hvalid : ∀ m ∈ requested, m ∈ availableModels.map (·.key))
    (hnosys : ∀ r ∈ recs, r.prompt_type ≠ "system_prompt") :
    runGenerateFables gen availableModels requested recs order
      = .error "No system prompt found in prompt file." := by
  have hsys : findSystemPrompt recs = none := by
    unfold findSystemPrompt
    rw [List.find?_eq_none.mpr]
    · rfl
    · intro r hr
      simpa using hnosys r hr
  have hinv : invalidModels availableModels requested = [] := by
    unfold invalidModels modelsToUse
    rcases requested with _ | ⟨r, rs⟩
    · simp only [List.isEmpty_nil, if_true]
      rw [List.filter_eq_nil_iff]
      intro m hm
      simp [List.elem_iff, hm]
    · simp only [List.isEmpty_cons, if_neg Bool.false_ne_true]
      rw [List.filter_eq_nil_iff]
      intro m hm
      simp [List.elem_iff, hvalid m hm]
  unfold runGenerateFables
  rw [if_neg (by simpa [List.isEmpty_iff] using hne)]
  rw [if_neg (by simp [hinv])]
  rw [hsys]

/-- C9: writing any list of FableRecords (dicts with string values for
the keys model, prompt and fable) as JSONL with `write_fables` and
reading the lines back with `read_prompts` yields structurally
identical records: the same number of records, each with the same three
keys bound to the same string values. -/
theorem write_fables_read_prompts_roundtrip (rs : List FableRecord) :
    read_prompts (write_fables rs) = some rs := by
  unfold read_prompts
  rw [splitLines_write_fables, List.filter_append]
  have h1 : (rs.map encodeRecord).filter (fun l => !(pyStripList l).isEmpty)
      = rs.map encodeRecord := by
    rw [List.filter_eq_self]
    intro l hl
    obtain ⟨r, hr, hre⟩ := List.mem_map.mp hl
    subst hre
    simp [List.isEmpty_iff, pyStripList_encodeRecord_ne_nil r]
  have h2 : ([([] : List Char)]).filter (fun l => !(pyStripList l).isEmpty)
      = [] := rfl
  rw [h1, h2, List.append_nil]
  exact mapM_parseRecord_encodeRecord rs

/-- C10 witness: one available model, no explicit model selection, and a
prompt file holding a single generator_prompt record. -/
theorem no_system_prompt_aborts_witness :
    runGenerateFables wGen wModels [] [⟨"generator_prompt", "g1"⟩] []
      = .error "No system prompt found in prompt file." :=
  no_system_prompt_aborts wGen wModels [] [⟨"generator_prompt", "g1"⟩] []
    (by unfold wModels; exact List.cons_ne_nil _ _)
    (by simp)
    (by decide)

end TinyFabulist
